import Mathlib

/-!
Verification of the N-dimensional crop layer (`src/caffe/layers/crop_layer.cpp`).

Tensors are modelled as row-major linear buffers (`Nat → α`) together with a
shape (`List Nat`).  The layer's operations — `LayerSetUp`, `Reshape`,
`crop_copy`, `Forward_cpu`, `Backward_cpu` — are translated from the C++
source.  External primitives of the tensor container (`Blob::offset`,
`Blob::shape`, `Blob::CanonicalAxisIndex`, `caffe_copy`, `caffe_set`) are not
part of the sources and are modelled from the spec's description of the
tensor data model (row-major layout, last dimension contiguous).
-/

namespace CaffeCrop

/-- Modelled from the spec: `caffe_copy(N, X, Y)` copies `N` contiguous
elements.  Buffers are total functions `Nat → α`; the C code passes pointers
`X + srcBase`, `Y + destBase`, modelled as explicit base offsets. -/
def caffe_copy {α : Type} (N : Nat) (src : Nat → α) (srcBase : Nat)
    (dest : Nat → α) (destBase : Nat) : Nat → α :=
  fun k => if destBase ≤ k ∧ k < destBase + N then src (srcBase + (k - destBase)) else dest k

/-- Modelled from the spec: `caffe_set(N, alpha, Y)` sets the first `N`
elements of `Y` to `alpha`. -/
def caffe_set {α : Type} (N : Nat) (alpha : α) (Y : Nat → α) : Nat → α :=
  fun k => if k < N then alpha else Y k

/-- An ascending C `for (i = 0; i < n; ++i)` loop threading a state:
iteration `n-1` is applied last. -/
def forLoop {σ : Type} : Nat → (Nat → σ → σ) → σ → σ
  | 0, _, s => s
  | n + 1, f, s => f n (forLoop n f s)

/-- Modelled from the spec: `Blob::offset(indices)` — row-major linear offset.
For each axis `i` in order: `offset = offset * shape(i) + (indices[i]` if
`i < indices.size()` else `0)`.  Trailing axes beyond the given index list
contribute index `0`. -/
def blobOffset : List Nat → List Nat → Nat → Nat
  | [], _, acc => acc
  | s :: ss, [], acc => blobOffset ss [] (acc * s)
  | s :: ss, i :: is, acc => blobOffset ss is (acc * s + i)

/-- Row-major linear index of a (possibly partial) multi-index, structural
form: `linIdx (s :: ss) (v :: vs) = v * ss.prod + linIdx ss vs`.
Equal to `blobOffset` with accumulator `0`. -/
def linIdx : List Nat → List Nat → Nat
  | _ :: ss, v :: vs => v * ss.prod + linIdx ss vs
  | _, _ => 0

/-- Inverse of `linIdx` on `[0, shape.prod)`: the multi-index of a linear
position in a row-major layout. -/
def unrank : List Nat → Nat → List Nat
  | [], _ => []
  | _ :: ss, k => (k / ss.prod) :: unrank ss (k % ss.prod)

/-- `v` is a valid (in-bounds) multi-index for `s`. -/
def validIdx (s v : List Nat) : Prop :=
  v.length = s.length ∧ ∀ i, i < s.length → v.getD i 0 < s.getD i 0

instance (s v : List Nat) : Decidable (validIdx s v) := by
  unfold validIdx; infer_instance

/-- The crop layer's configuration: `axis` (signed, resolved against the
source rank) and the `offset` values (`repeated uint32` in the proto, hence
natural numbers). -/
structure CropParameter where
  axis : Int
  offset : List Nat
deriving DecidableEq

/-- Modelled from the spec: `Blob::CanonicalAxisIndex` resolves a signed axis
specifier against the rank, supporting negative from-end indexing; an axis
outside `[-rank, rank)` is a configuration error. -/
def CanonicalAxisIndex (num_axes : Nat) (axis_index : Int) : Option Nat :=
  if -(num_axes : Int) ≤ axis_index ∧ axis_index < (num_axes : Int) then
    some (if axis_index < 0 then (axis_index + num_axes).toNat else axis_index.toNat)
  else none

/-- `CropLayer::LayerSetUp` (crop_layer.cpp lines 15-34): checks the axis is
canonicalisable and below the input rank, and that when more than one offset
is given their count equals the number of dimensions following the axis.
(`CHECK_EQ(bottom.size(), 2)` is structural: the model takes exactly two
input shapes.) -/
def LayerSetUp (param : CropParameter) (input_dim : Nat) : Bool :=
  match CanonicalAxisIndex input_dim param.axis with
  | none => false
  | some start_axis =>
    decide (start_axis < input_dim) &&
      (decide (param.offset.length ≤ 1) ||
        decide (start_axis + param.offset.length = input_dim))

/-- The `crop_offset` computed by `CropLayer::Reshape` for dimension `i`
(crop_layer.cpp lines 50-63): `0` before the start axis; from the start axis
on, the single offset if exactly one was given, the positional offset
`offset[i - start_axis]` if several were given, `0` if none. -/
def cropOffsetAt (param : CropParameter) (start_axis i : Nat) : Nat :=
  if start_axis ≤ i then
    if param.offset.length = 1 then param.offset.getD 0 0
    else if 1 < param.offset.length then param.offset.getD (i - start_axis) 0
    else 0
  else 0

/-- The configuration errors `CropLayer` can raise (fatal `CHECK`s in the
source): an unresolvable axis, an out-of-range access into the reference
shape (`Blob::shape` range check), or the crop-fit check
`"invalid crop parameters in dimension: i"` (crop_layer.cpp lines 67-69). -/
inductive CropError where
  | axisOutOfRange : CropError
  | shapeIndexOutOfRange : Nat → CropError
  | invalidCropParams : Nat → CropError
deriving DecidableEq

/-- Result of `CropLayer::Reshape`: on success the resolved offsets and the
new top shape; on failure the error together with the value of the `offsets`
member at the point of abort (the member is re-initialised and written
dimension-by-dimension before the failing check). -/
inductive ReshapeResult where
  | ok : List Nat → List Nat → ReshapeResult
  | err : CropError → List Nat → ReshapeResult
deriving DecidableEq

/-- The per-dimension loop of `CropLayer::Reshape` (crop_layer.cpp lines
49-73), iteration `i`, with `rem` iterations remaining (the loop runs
`input_dim` times).  Reads `bottom[1]->shape(i)` (range-checked), computes
`crop_offset` and `new_size`, performs
`CHECK_GE(bottom[0]->shape(i) - crop_offset, bottom[1]->shape(i))` in signed
arithmetic, then commits `offsets[i]` and `new_shape[i]`. -/
def reshapeLoop (param : CropParameter) (botShape refShape : List Nat)
    (start_axis : Nat) :
    Nat → Nat → List Nat → List Nat → ReshapeResult
  | 0, _, offsets, new_shape => .ok offsets new_shape
  | rem + 1, i, offsets, new_shape =>
    match refShape.get? i with
    | none => .err (.shapeIndexOutOfRange i) offsets
    | some refI =>
      let crop_offset := cropOffsetAt param start_axis i
      let new_size := if start_axis ≤ i then refI else botShape.getD i 0
      if (refI : Int) ≤ (botShape.getD i 0 : Int) - (crop_offset : Int) then
        reshapeLoop param botShape refShape start_axis rem (i + 1)
          (offsets.set i crop_offset) (new_shape.set i new_size)
      else .err (.invalidCropParams i) offsets

/-- `CropLayer::Reshape` (crop_layer.cpp lines 36-75): canonicalise the axis,
re-initialise the `offsets` member to all zeros and `new_shape` to the source
shape, run the per-dimension loop; on success the top blob is reshaped to
`new_shape`.  `oldOffsets` is the `offsets` member before the call. -/
def Reshape (param : CropParameter) (botShape refShape : List Nat)
    (oldOffsets : List Nat) : ReshapeResult :=
  match CanonicalAxisIndex botShape.length param.axis with
  | none => .err .axisOutOfRange oldOffsets
  | some start_axis =>
    reshapeLoop param botShape refShape start_axis botShape.length 0
      (List.replicate botShape.length 0) botShape

/-- The crop layer's per-instance state: the `offsets` member and the top
blob's shape. -/
structure CropState where
  offsets : List Nat
  topShape : List Nat
deriving DecidableEq

/-- `Reshape` as a transformer of the per-instance state: on success both the
offsets member and the top shape are replaced; on failure the offsets member
holds its value at abort while the top shape is untouched
(`top[0]->Reshape(new_shape)` only runs after all checks). -/
def ReshapeStep (param : CropParameter) (botShape refShape : List Nat)
    (s : CropState) : CropState × Option CropError :=
  match Reshape param botShape refShape s.offsets with
  | .ok o ns => (⟨o, ns⟩, none)
  | .err e o => (⟨o, s.topShape⟩, some e)

/-- The innermost branch of `CropLayer::crop_copy` (crop_layer.cpp lines
94-118): at the last dimension, loop `i` over `top[0]->shape(cur_dim)`
iterations (the loop variable is unused by the body), build the reduced index
`ind_red` and the offset index `ind_off`, and bulk-copy
`top[0]->shape(cur_dim)` contiguous elements between
`bottom[0]->offset(ind_off)` and `top[0]->offset(ind_red)` (direction chosen
by `is_forward`). -/
def cropCopyLast {α : Type} (bottomShape topShape offsets : List Nat)
    (is_forward : Bool) (src_data : Nat → α) (indices : List Nat)
    (cur_dim : Nat) (dest_data : Nat → α) : Nat → α :=
  forLoop (topShape.getD cur_dim 0)
    (fun _ d =>
      let ind_red := (List.range cur_dim).map (fun j => indices.getD j 0)
      let ind_off := ((List.range cur_dim).map
          (fun j => indices.getD j 0 + offsets.getD j 0)) ++ [offsets.getD cur_dim 0]
      if is_forward then
        caffe_copy (topShape.getD cur_dim 0) src_data (blobOffset bottomShape ind_off 0)
          d (blobOffset topShape ind_red 0)
      else
        caffe_copy (topShape.getD cur_dim 0) src_data (blobOffset topShape ind_red 0)
          d (blobOffset bottomShape ind_off 0))
    dest_data

/-- `CropLayer::crop_copy` (crop_layer.cpp lines 78-119): while
`cur_dim + 1 < top[0]->num_axes()`, loop `i` over `top[0]->shape(cur_dim)`,
set `indices[cur_dim] = i` and recurse into `cur_dim + 1`; at the last
dimension run `cropCopyLast`.  The recursion depth is bounded by the number
of axes, made structural through `fuel` (callers pass `topShape.length`). -/
def crop_copy {α : Type} (bottomShape topShape offsets : List Nat)
    (is_forward : Bool) (src_data : Nat → α) :
    Nat → List Nat → Nat → (Nat → α) → Nat → α
  | 0, indices, cur_dim, dest_data =>
    if cur_dim + 1 < topShape.length then dest_data
    else cropCopyLast bottomShape topShape offsets is_forward src_data indices cur_dim dest_data
  | fuel + 1, indices, cur_dim, dest_data =>
    if cur_dim + 1 < topShape.length then
      forLoop (topShape.getD cur_dim 0)
        (fun i d =>
          crop_copy bottomShape topShape offsets is_forward src_data fuel
            (indices.set cur_dim i) (cur_dim + 1) d)
        dest_data
    else cropCopyLast bottomShape topShape offsets is_forward src_data indices cur_dim dest_data

/-- `CropLayer::Forward_cpu` (crop_layer.cpp lines 121-128): zero-initialised
index vector, then `crop_copy` from the bottom data into the top data with
`is_forward = true`. -/
def Forward_cpu {α : Type} (bottomShape topShape offsets : List Nat)
    (bottom_data top_data : Nat → α) : Nat → α :=
  crop_copy bottomShape topShape offsets true bottom_data topShape.length
    (List.replicate topShape.length 0) 0 top_data

/-- `CropLayer::Backward_cpu` (crop_layer.cpp lines 130-141): if
`propagate_down`, zero-fill the whole bottom diff (`caffe_set` over
`bottom[0]->count()` elements) and `crop_copy` from the top diff into the
bottom diff with `is_forward = false`; otherwise leave the bottom diff
untouched. -/
def Backward_cpu {α : Type} [Zero α] (bottomShape topShape offsets : List Nat)
    (propagate_down : Bool) (top_diff bottom_diff : Nat → α) : Nat → α :=
  if propagate_down then
    crop_copy bottomShape topShape offsets false top_diff topShape.length
      (List.replicate topShape.length 0) 0
      (caffe_set bottomShape.prod (0 : α) bottom_diff)
  else bottom_diff

/-- The number of `caffe_copy` invocations performed by
`CropLayer::crop_copy`, mirroring its recursion structure: at a non-final
dimension the outer loop multiplies by `top[0]->shape(cur_dim)`; at the last
dimension the inner loop performs `top[0]->shape(cur_dim)` bulk copies (one
per iteration — the loop variable is unused by the body). -/
def cropCopyCalls (topShape : List Nat) : Nat → Nat → Nat
  | 0, cur_dim =>
    if cur_dim + 1 < topShape.length then 0 else topShape.getD cur_dim 0
  | fuel + 1, cur_dim =>
    if cur_dim + 1 < topShape.length then
      topShape.getD cur_dim 0 * cropCopyCalls topShape fuel (cur_dim + 1)
    else topShape.getD cur_dim 0

/-- Destination linear position of output multi-index `v`: in the top buffer
for the forward direction, in the bottom buffer shifted by the resolved
offsets for the backward direction. -/
def destPos (bottomShape topShape offsets : List Nat) (is_forward : Bool)
    (v : List Nat) : Nat :=
  if is_forward then linIdx topShape v
  else linIdx bottomShape (List.zipWith (· + ·) v offsets)

/-- Source linear position of output multi-index `v` (the mirror image of
`destPos`). -/
def srcPos (bottomShape topShape offsets : List Nat) (is_forward : Bool)
    (v : List Nat) : Nat :=
  if is_forward then linIdx bottomShape (List.zipWith (· + ·) v offsets)
  else linIdx topShape v

/-! ### List helper lemmas -/

theorem getD_cons_zero {α : Type} (a : α) (l : List α) (d : α) : (a :: l).getD 0 d = a := rfl

theorem getD_cons_succ {α : Type} (a : α) (l : List α) (n : Nat) (d : α) :
    (a :: l).getD (n + 1) d = l.getD n d := rfl

theorem ext_getD : ∀ (a b : List Nat), a.length = b.length →
    (∀ i, i < a.length → a.getD i 0 = b.getD i 0) → a = b := by
  intro a
  induction a with
  | nil =>
    intro b hl _
    cases b with
    | nil => rfl
    | cons y ys => simp at hl
  | cons x xs ih =>
    intro b hl h
    cases b with
    | nil => simp at hl
    | cons y ys =>
      have h0 : x = y := h 0 (by simp)
      have ht : xs = ys := by
        refine ih ys ?_ ?_
        · simp only [List.length_cons] at hl; omega
        · intro i hi
          exact h (i + 1) (by simp only [List.length_cons]; omega)
      rw [h0, ht]

theorem getD_set_self {α : Type} : ∀ (l : List α) (n : Nat) (x d : α), n < l.length →
    (l.set n x).getD n d = x := by
  intro l
  induction l with
  | nil => intro n x d h; simp at h
  | cons a t ih =>
    intro n x d h
    cases n with
    | zero => rfl
    | succ m => exact ih m x d (by simp only [List.length_cons] at h; omega)

theorem getD_set_ne {α : Type} : ∀ (l : List α) (m n : Nat) (x d : α), m ≠ n →
    (l.set m x).getD n d = l.getD n d := by
  intro l
  induction l with
  | nil => intro m n x d _; rfl
  | cons a t ih =>
    intro m n x d hmn
    cases m with
    | zero =>
      cases n with
      | zero => exact absurd rfl hmn
      | succ k => rfl
    | succ q =>
      cases n with
      | zero => rfl
      | succ k => exact ih q k x d (by omega)

theorem take_succ_getD {α : Type} : ∀ (l : List α) (n : Nat) (d : α), n < l.length →
    l.take (n + 1) = l.take n ++ [l.getD n d] := by
  intro l
  induction l with
  | nil => intro n d h; simp at h
  | cons a t ih =>
    intro n d h
    cases n with
    | zero => rfl
    | succ m =>
      have hm : m < t.length := by simp only [List.length_cons] at h; omega
      show a :: t.take (m + 1) = (a :: t.take m) ++ [(a :: t).getD (m + 1) d]
      rw [getD_cons_succ, ih m d hm]
      rfl

theorem take_set_succ {α : Type} : ∀ (l : List α) (n : Nat) (x : α), n < l.length →
    (l.set n x).take (n + 1) = l.take n ++ [x] := by
  intro l
  induction l with
  | nil => intro n x h; simp at h
  | cons a t ih =>
    intro n x h
    cases n with
    | zero => rfl
    | succ m =>
      have hm : m < t.length := by simp only [List.length_cons] at h; omega
      show a :: (t.set m x).take (m + 1) = (a :: t.take m) ++ [x]
      rw [ih m x hm]
      rfl

theorem drop_last_eq {α : Type} : ∀ (l : List α) (n : Nat) (d : α), l.length = n + 1 →
    l.drop n = [l.getD n d] := by
  intro l
  induction l with
  | nil => intro n d h; simp at h
  | cons a t ih =>
    intro n d h
    cases n with
    | zero =>
      cases t with
      | nil => rfl
      | cons b u => simp only [List.length_cons] at h; omega
    | succ m => exact ih m d (by simp only [List.length_cons] at h; omega)

theorem map_range_getD : ∀ (n : Nat) (l : List Nat), n ≤ l.length →
    (List.range n).map (fun j => l.getD j 0) = l.take n := by
  intro n
  induction n with
  | zero => intro l _; simp
  | succ m ih =>
    intro l h
    rw [List.range_succ, List.map_append, ih l (by omega), List.map_singleton,
      take_succ_getD l m 0 (by omega)]

theorem map_range_getD_add : ∀ (n : Nat) (a b : List Nat), n ≤ a.length → n ≤ b.length →
    (List.range n).map (fun j => a.getD j 0 + b.getD j 0) =
      List.zipWith (· + ·) (a.take n) (b.take n) := by
  intro n
  induction n with
  | zero => intro a b _ _; simp
  | succ m ih =>
    intro a b ha hb
    rw [List.range_succ, List.map_append, ih a b (by omega) (by omega), List.map_singleton,
      take_succ_getD a m 0 (by omega), take_succ_getD b m 0 (by omega),
      List.zipWith_append _ _ _ _ _ (by simp [List.length_take]; omega)]
    rfl

theorem getD_zipWith (f : Nat → Nat → Nat) : ∀ (a b : List Nat) (i : Nat),
    i < a.length → i < b.length →
    (List.zipWith f a b).getD i 0 = f (a.getD i 0) (b.getD i 0) := by
  intro a
  induction a with
  | nil => intro b i h _; simp at h
  | cons x xs ih =>
    intro b i ha hb
    cases b with
    | nil => simp at hb
    | cons y ys =>
      cases i with
      | zero => rfl
      | succ m =>
        exact ih ys m (by simp only [List.length_cons] at ha; omega)
          (by simp only [List.length_cons] at hb; omega)

theorem getD_append_lt {α : Type} : ∀ (a b : List α) (i : Nat) (d : α), i < a.length →
    (a ++ b).getD i d = a.getD i d := by
  intro a
  induction a with
  | nil => intro b i d h; simp at h
  | cons x xs ih =>
    intro b i d h
    cases i with
    | zero => rfl
    | succ m => exact ih b m d (by simp only [List.length_cons] at h; omega)

theorem getD_append_ge {α : Type} : ∀ (a b : List α) (i : Nat) (d : α), a.length ≤ i →
    (a ++ b).getD i d = b.getD (i - a.length) d := by
  intro a
  induction a with
  | nil => intro b i d _; simp
  | cons x xs ih =>
    intro b i d h
    cases i with
    | zero => simp at h
    | succ m =>
      have := ih b m d (by simp only [List.length_cons] at h; omega)
      simpa [Nat.succ_sub_succ] using this

theorem getD_take_lt {α : Type} : ∀ (l : List α) (n i : Nat) (d : α), i < n →
    (l.take n).getD i d = l.getD i d := by
  intro l
  induction l with
  | nil => intro n i d _; simp
  | cons a t ih =>
    intro n i d h
    cases n with
    | zero => omega
    | succ m =>
      cases i with
      | zero => rfl
      | succ j => exact ih m j d (by omega)

theorem getD_replicate_lt {α : Type} : ∀ (n i : Nat) (x d : α), i < n →
    (List.replicate n x).getD i d = x := by
  intro n
  induction n with
  | zero => intro i x d h; omega
  | succ m ih =>
    intro i x d h
    cases i with
    | zero => rfl
    | succ j => exact ih j x d (by omega)

theorem getD_ge_length {α : Type} : ∀ (l : List α) (i : Nat) (d : α), l.length ≤ i →
    l.getD i d = d := by
  intro l
  induction l with
  | nil => intro i d _; rfl
  | cons a t ih =>
    intro i d h
    cases i with
    | zero => simp at h
    | succ m => exact ih m d (by simp only [List.length_cons] at h; omega)

theorem length_one_eq {α : Type} (l : List α) (d : α) (h : l.length = 1) :
    l = [l.getD 0 d] := by
  cases l with
  | nil => simp at h
  | cons a t =>
    cases t with
    | nil => rfl
    | cons b u => simp only [List.length_cons] at h; omega

/-! ### Row-major index lemmas -/

theorem linIdx_nil_right : ∀ (s : List Nat), linIdx s [] = 0 := by
  intro s; cases s <;> rfl

theorem linIdx_nil_left : ∀ (v : List Nat), linIdx [] v = 0 := by
  intro v; cases v <;> rfl

theorem linIdx_cons (s : Nat) (ss : List Nat) (v : Nat) (vs : List Nat) :
    linIdx (s :: ss) (v :: vs) = v * ss.prod + linIdx ss vs := rfl

theorem blobOffset_acc : ∀ (ss is : List Nat) (acc : Nat),
    blobOffset ss is acc = acc * ss.prod + blobOffset ss is 0 := by
  intro ss
  induction ss with
  | nil => intro is acc; cases is <;> simp [blobOffset]
  | cons s ss ih =>
    intro is acc
    cases is with
    | nil =>
      show blobOffset ss [] (acc * s) = acc * (s :: ss).prod + blobOffset ss [] (0 * s)
      rw [ih [] (acc * s), ih [] (0 * s), List.prod_cons]
      ring
    | cons i iss =>
      show blobOffset ss iss (acc * s + i) = acc * (s :: ss).prod + blobOffset ss iss (0 * s + i)
      rw [ih iss (acc * s + i), ih iss (0 * s + i), List.prod_cons]
      ring

theorem blobOffset_eq_linIdx : ∀ (ss is : List Nat), blobOffset ss is 0 = linIdx ss is := by
  intro ss
  induction ss with
  | nil => intro is; cases is <;> rfl
  | cons s ss ih =>
    intro is
    cases is with
    | nil =>
      show blobOffset ss [] (0 * s) = linIdx (s :: ss) []
      rw [blobOffset_acc, ih, linIdx_nil_right, linIdx_nil_right]
      simp
    | cons i iss =>
      show blobOffset ss iss (0 * s + i) = linIdx (s :: ss) (i :: iss)
      rw [blobOffset_acc, ih, linIdx_cons]
      ring

theorem linIdx_append : ∀ (s u w : List Nat), u.length ≤ s.length →
    linIdx s (u ++ w) = linIdx s u + linIdx (s.drop u.length) w := by
  intro s
  induction s with
  | nil =>
    intro u w h
    have hu : u = [] := List.length_eq_zero.mp (Nat.le_zero.mp (by simpa using h))
    subst hu
    simp [linIdx_nil_left, linIdx_nil_right]
  | cons a ss ih =>
    intro u w h
    cases u with
    | nil => simp [linIdx_nil_right]
    | cons x xs =>
      simp only [List.cons_append, linIdx_cons, List.length_cons, List.drop_succ_cons]
      rw [ih xs w (by simp only [List.length_cons] at h; omega)]
      ring

theorem linIdx_lt_prod : ∀ (s v : List Nat), v.length = s.length →
    (∀ i, i < s.length → v.getD i 0 < s.getD i 0) → linIdx s v < s.prod := by
  intro s
  induction s with
  | nil =>
    intro v hl _
    have hv : v = [] := List.length_eq_zero.mp (by simpa using hl)
    subst hv
    simp [linIdx_nil_left]
  | cons a ss ih =>
    intro v hl hv
    cases v with
    | nil => simp at hl
    | cons x xs =>
      have hx : x < a := hv 0 (by simp)
      have hrest : linIdx ss xs < ss.prod := by
        refine ih xs ?_ ?_
        · simp only [List.length_cons] at hl; omega
        · intro i hi
          exact hv (i + 1) (by simp only [List.length_cons]; omega)
      rw [linIdx_cons, List.prod_cons]
      calc x * ss.prod + linIdx ss xs < x * ss.prod + ss.prod := by omega
        _ = (x + 1) * ss.prod := by ring
        _ ≤ a * ss.prod := Nat.mul_le_mul_right _ hx

theorem linIdx_inj : ∀ (s v w : List Nat), validIdx s v → validIdx s w →
    linIdx s v = linIdx s w → v = w := by
  intro s
  induction s with
  | nil =>
    intro v w hv hw _
    have hv0 : v = [] := List.length_eq_zero.mp (by have := hv.1; simpa using this)
    have hw0 : w = [] := List.length_eq_zero.mp (by have := hw.1; simpa using this)
    rw [hv0, hw0]
  | cons a ss ih =>
    intro v w hv hw heq
    cases v with
    | nil => have := hv.1; simp at this
    | cons x xs =>
      cases w with
      | nil => have := hw.1; simp at this
      | cons y ys =>
        have hxsv : validIdx ss xs := by
          refine ⟨?_, ?_⟩
          · have := hv.1; simp only [List.length_cons] at this; omega
          · intro i hi; exact hv.2 (i + 1) (by simp only [List.length_cons]; omega)
        have hysv : validIdx ss ys := by
          refine ⟨?_, ?_⟩
          · have := hw.1; simp only [List.length_cons] at this; omega
          · intro i hi; exact hw.2 (i + 1) (by simp only [List.length_cons]; omega)
        have hxlt : linIdx ss xs < ss.prod := linIdx_lt_prod ss xs hxsv.1 hxsv.2
        have hylt : linIdx ss ys < ss.prod := linIdx_lt_prod ss ys hysv.1 hysv.2
        rw [linIdx_cons, linIdx_cons] at heq
        have hxy : x = y := by
          rcases Nat.lt_trichotomy x y with h | h | h
          · exfalso
            have h1 : (x + 1) * ss.prod ≤ y * ss.prod := Nat.mul_le_mul_right _ h
            rw [Nat.succ_mul] at h1
            omega
          · exact h
          · exfalso
            have h1 : (y + 1) * ss.prod ≤ x * ss.prod := Nat.mul_le_mul_right _ h
            rw [Nat.succ_mul] at h1
            omega
        subst hxy
        have hrest : linIdx ss xs = linIdx ss ys := by omega
        rw [ih xs ys hxsv hysv hrest]

theorem unrank_length : ∀ (s : List Nat) (k : Nat), (unrank s k).length = s.length := by
  intro s
  induction s with
  | nil => intro k; rfl
  | cons a ss ih => intro k; simp [unrank, ih]

theorem unrank_valid : ∀ (s : List Nat) (k : Nat), k < s.prod →
    ∀ i, i < s.length → (unrank s k).getD i 0 < s.getD i 0 := by
  intro s
  induction s with
  | nil => intro k _ i hi; simp at hi
  | cons a ss ih =>
    intro k hk i hi
    have hP : 0 < ss.prod := by
      rcases Nat.eq_zero_or_pos ss.prod with h | h
      · rw [List.prod_cons, h, Nat.mul_zero] at hk; omega
      · exact h
    cases i with
    | zero =>
      show k / ss.prod < a
      rw [Nat.div_lt_iff_lt_mul hP]
      rw [List.prod_cons] at hk
      exact hk
    | succ m =>
      exact ih (k % ss.prod) (Nat.mod_lt k hP) m
        (by simp only [List.length_cons] at hi; omega)

theorem linIdx_unrank : ∀ (s : List Nat) (k : Nat), k < s.prod →
    linIdx s (unrank s k) = k := by
  intro s
  induction s with
  | nil =>
    intro k hk
    simp only [List.prod_nil] at hk
    interval_cases k
    rfl
  | cons a ss ih =>
    intro k hk
    have hP : 0 < ss.prod := by
      rcases Nat.eq_zero_or_pos ss.prod with h | h
      · rw [List.prod_cons, h, Nat.mul_zero] at hk; omega
      · exact h
    show (k / ss.prod) * ss.prod + linIdx ss (unrank ss (k % ss.prod)) = k
    rw [ih (k % ss.prod) (Nat.mod_lt k hP)]
    rw [Nat.mul_comm]
    exact Nat.div_add_mod k ss.prod

theorem unrank_validIdx (s : List Nat) (k : Nat) (hk : k < s.prod) :
    validIdx s (unrank s k) :=
  ⟨unrank_length s k, unrank_valid s k hk⟩

/-! ### Multi-index arithmetic for the crop window -/

theorem validIdx_zip_add {bottomShape topShape offsets v : List Nat}
    (hlb : bottomShape.length = topShape.length) (hlo : offsets.length = topShape.length)
    (hfit : ∀ i, i < topShape.length →
      offsets.getD i 0 + topShape.getD i 0 ≤ bottomShape.getD i 0)
    (hv : validIdx topShape v) :
    validIdx bottomShape (List.zipWith (· + ·) v offsets) := by
  refine ⟨?_, ?_⟩
  · rw [List.length_zipWith, hv.1, hlo, hlb]
    simp
  · intro i hi
    rw [hlb] at hi
    have hvl : i < v.length := by rw [hv.1]; exact hi
    have hol : i < offsets.length := by rw [hlo]; exact hi
    rw [getD_zipWith _ v offsets i hvl hol]
    have h1 := hv.2 i hi
    have h2 := hfit i hi
    omega

theorem zip_add_cancel {v w o : List Nat} (hv : v.length = o.length)
    (hw : w.length = o.length)
    (h : List.zipWith (· + ·) v o = List.zipWith (· + ·) w o) : v = w := by
  refine ext_getD v w (by omega) ?_
  intro i hi
  have h1 := congrArg (fun l => List.getD l i 0) h
  simp only at h1
  rw [getD_zipWith _ v o i hi (by omega), getD_zipWith _ w o i (by omega) (by omega)] at h1
  omega

theorem destPos_inj {bottomShape topShape offsets : List Nat} (fwd : Bool)
    (hlb : bottomShape.length = topShape.length) (hlo : offsets.length = topShape.length)
    (hfit : ∀ i, i < topShape.length →
      offsets.getD i 0 + topShape.getD i 0 ≤ bottomShape.getD i 0)
    {v w : List Nat} (hv : validIdx topShape v) (hw : validIdx topShape w)
    (h : destPos bottomShape topShape offsets fwd v =
      destPos bottomShape topShape offsets fwd w) : v = w := by
  cases fwd with
  | true =>
    simp only [destPos, if_true] at h
    exact linIdx_inj topShape v w hv hw h
  | false =>
    simp [destPos] at h
    have hzv := validIdx_zip_add hlb hlo hfit hv
    have hzw := validIdx_zip_add hlb hlo hfit hw
    have heq := linIdx_inj bottomShape _ _ hzv hzw h
    refine zip_add_cancel ?_ ?_ heq
    · rw [hv.1, hlo]
    · rw [hw.1, hlo]

/-! ### Reshape loop invariants -/

theorem get?_some_lt {α : Type} (l : List α) (n : Nat) (x : α) (h : l.get? n = some x) :
    n < l.length := by
  by_contra hn
  rw [List.get?_eq_none.mpr (by omega)] at h
  exact Option.noConfusion h

theorem get?_some_getD {α : Type} (l : List α) (n : Nat) (x d : α) (h : l.get? n = some x) :
    l.getD n d = x := by
  rw [List.getD_eq_getElem?_getD, ← List.get?_eq_getElem?, h]
  rfl

theorem canonical_lt (n : Nat) (ax : Int) (a : Nat)
    (h : CanonicalAxisIndex n ax = some a) : a < n := by
  unfold CanonicalAxisIndex at h
  split at h
  · rename_i hcond
    injection h with h'
    subst h'
    split
    · omega
    · omega
  · exact absurd h (by simp)

theorem Reshape_eq_loop (param : CropParameter) (botShape refShape oldOffsets : List Nat)
    (a : Nat) (ha : CanonicalAxisIndex botShape.length param.axis = some a) :
    Reshape param botShape refShape oldOffsets =
      reshapeLoop param botShape refShape a botShape.length 0
        (List.replicate botShape.length 0) botShape := by
  unfold Reshape
  rw [ha]

theorem reshapeLoop_ok_spec (param : CropParameter) (botShape refShape : List Nat)
    (start_axis : Nat) :
    ∀ (rem i : Nat) (offsets new_shape offs ns : List Nat),
    reshapeLoop param botShape refShape start_axis rem i offsets new_shape = .ok offs ns →
    i + rem ≤ offsets.length → i + rem ≤ new_shape.length →
    offs.length = offsets.length ∧ ns.length = new_shape.length ∧
    (∀ j, j < i ∨ i + rem ≤ j →
      offs.getD j 0 = offsets.getD j 0 ∧ ns.getD j 0 = new_shape.getD j 0) ∧
    (∀ j, i ≤ j → j < i + rem →
      j < refShape.length ∧
      offs.getD j 0 = cropOffsetAt param start_axis j ∧
      ns.getD j 0 = (if start_axis ≤ j then refShape.getD j 0 else botShape.getD j 0) ∧
      (refShape.getD j 0 : Int) ≤
        (botShape.getD j 0 : Int) - (cropOffsetAt param start_axis j : Int)) := by
  intro rem
  induction rem with
  | zero =>
    intro i offsets new_shape offs ns h _ _
    unfold reshapeLoop at h
    injection h with h1 h2
    subst h1; subst h2
    refine ⟨rfl, rfl, fun j _ => ⟨rfl, rfl⟩, fun j hj1 hj2 => ?_⟩
    omega
  | succ m ih =>
    intro i offsets new_shape offs ns h hoff hns
    unfold reshapeLoop at h
    cases hg : refShape.get? i with
    | none => rw [hg] at h; exact absurd h (by simp)
    | some refI =>
      rw [hg] at h
      simp only at h
      by_cases hc : (refI : Int) ≤ (botShape.getD i 0 : Int) -
          (cropOffsetAt param start_axis i : Int)
      · rw [if_pos hc] at h
        have hil : i < offsets.length := by omega
        have hins : i < new_shape.length := by omega
        obtain ⟨L1, L2, Hout, Hin⟩ := ih (i + 1)
          (offsets.set i (cropOffsetAt param start_axis i))
          (new_shape.set i (if start_axis ≤ i then refI else botShape.getD i 0)) offs ns h
          (by rw [List.length_set]; omega) (by rw [List.length_set]; omega)
        rw [List.length_set] at L1
        rw [List.length_set] at L2
        refine ⟨L1, L2, ?_, ?_⟩
        · intro j hj
          have hji : j ≠ i := by omega
          have hj1 : j < i + 1 ∨ (i + 1) + m ≤ j := by omega
          obtain ⟨e1, e2⟩ := Hout j hj1
          rw [e1, e2, getD_set_ne offsets i j _ 0 (fun he => hji he.symm),
            getD_set_ne new_shape i j _ 0 (fun he => hji he.symm)]
          exact ⟨rfl, rfl⟩
        · intro j hj1 hj2
          by_cases hji : j = i
          · subst hji
            obtain ⟨e1, e2⟩ := Hout j (by omega)
            rw [e1, e2, getD_set_self offsets j _ 0 hil, getD_set_self new_shape j _ 0 hins]
            have hlt := get?_some_lt refShape j refI hg
            have hgd := get?_some_getD refShape j refI 0 hg
            refine ⟨hlt, rfl, by rw [hgd], ?_⟩
            rw [hgd]
            exact hc
          · have := Hin j (by omega) (by omega)
            exact this
      · rw [if_neg hc] at h
        exact absurd h (by simp)

theorem reshapeLoop_err_spec (param : CropParameter) (botShape refShape : List Nat)
    (start_axis : Nat) :
    ∀ (rem i : Nat) (offsets new_shape : List Nat) (e : CropError) (offsAbort : List Nat),
    reshapeLoop param botShape refShape start_axis rem i offsets new_shape =
      .err e offsAbort →
    i + rem ≤ offsets.length →
    ∃ d, i ≤ d ∧ d < i + rem ∧
      ((e = .shapeIndexOutOfRange d ∧ refShape.length ≤ d) ∨
        (e = .invalidCropParams d ∧ d < refShape.length ∧
          ¬ ((refShape.getD d 0 : Int) ≤
            (botShape.getD d 0 : Int) - (cropOffsetAt param start_axis d : Int)))) ∧
      offsAbort.length = offsets.length ∧
      (∀ j, j < i ∨ d ≤ j → offsAbort.getD j 0 = offsets.getD j 0) ∧
      (∀ j, i ≤ j → j < d → offsAbort.getD j 0 = cropOffsetAt param start_axis j) := by
  intro rem
  induction rem with
  | zero =>
    intro i offsets new_shape e offsAbort h _
    unfold reshapeLoop at h
    exact absurd h (by simp)
  | succ m ih =>
    intro i offsets new_shape e offsAbort h hoff
    unfold reshapeLoop at h
    cases hg : refShape.get? i with
    | none =>
      rw [hg] at h
      injection h with h1 h2
      subst h1; subst h2
      refine ⟨i, le_refl i, by omega, Or.inl ⟨rfl, ?_⟩, rfl, fun j _ => rfl, fun j hj1 hj2 => ?_⟩
      · by_contra hn
        rw [List.get?_eq_none] at hg
        omega
      · omega
    | some refI =>
      rw [hg] at h
      simp only at h
      by_cases hc : (refI : Int) ≤ (botShape.getD i 0 : Int) -
          (cropOffsetAt param start_axis i : Int)
      · rw [if_pos hc] at h
        have hil : i < offsets.length := by omega
        obtain ⟨d, hd1, hd2, hcase, hlen, hout, hproc⟩ := ih (i + 1)
          (offsets.set i (cropOffsetAt param start_axis i))
          (new_shape.set i (if start_axis ≤ i then refI else botShape.getD i 0)) e offsAbort h
          (by rw [List.length_set]; omega)
        rw [List.length_set] at hlen
        refine ⟨d, by omega, by omega, hcase, hlen, ?_, ?_⟩
        · intro j hj
          have hji : j ≠ i := by omega
          rw [hout j (by omega), getD_set_ne offsets i j _ 0 (fun he => hji he.symm)]
        · intro j hj1 hj2
          by_cases hji : j = i
          · subst hji
            rw [hout j (by omega), getD_set_self offsets j _ 0 hil]
          · exact hproc j (by omega) hj2
      · rw [if_neg hc] at h
        injection h with h1 h2
        subst h1; subst h2
        have hlt := get?_some_lt refShape i refI hg
        have hgd := get?_some_getD refShape i refI 0 hg
        refine ⟨i, le_refl i, by omega, Or.inr ⟨rfl, hlt, by rw [hgd]; exact hc⟩, rfl,
          fun j _ => rfl, fun j hj1 hj2 => by omega⟩

theorem cropOffsetAt_broadcast (botLen : Nat) (ax : Int) (k a i : Nat)
    (ha : a < botLen) (hi : i < botLen) :
    cropOffsetAt ⟨ax, [k]⟩ a i = cropOffsetAt ⟨ax, List.replicate (botLen - a) k⟩ a i := by
  unfold cropOffsetAt
  by_cases hia : a ≤ i
  · rw [if_pos hia, if_pos hia]
    have hL : ([k] : List Nat).length = 1 := rfl
    have hR : (List.replicate (botLen - a) k).length = botLen - a :=
      List.length_replicate _ _
    rw [hL, hR, if_pos rfl]
    show k = _
    by_cases h1 : botLen - a = 1
    · rw [if_pos h1, h1]
      rfl
    · rw [if_neg h1, if_pos (show 1 < botLen - a by omega)]
      rw [getD_replicate_lt _ _ _ _ (show i - a < botLen - a by omega)]
  · rw [if_neg hia, if_neg hia]

theorem reshapeLoop_broadcast (botShape refShape : List Nat) (ax : Int) (k a : Nat)
    (ha : a < botShape.length) :
    ∀ (rem i : Nat) (offsets new_shape : List Nat), i + rem ≤ botShape.length →
    reshapeLoop ⟨ax, [k]⟩ botShape refShape a rem i offsets new_shape =
      reshapeLoop ⟨ax, List.replicate (botShape.length - a) k⟩ botShape refShape a rem i
        offsets new_shape := by
  intro rem
  induction rem with
  | zero => intro i offsets new_shape _; rfl
  | succ m ih =>
    intro i offsets new_shape hle
    unfold reshapeLoop
    cases hg : refShape.get? i with
    | none => rfl
    | some refI =>
      simp only
      rw [cropOffsetAt_broadcast botShape.length ax k a i ha (by omega)]
      by_cases hc : (refI : Int) ≤ (botShape.getD i 0 : Int) -
          (cropOffsetAt ⟨ax, List.replicate (botShape.length - a) k⟩ a i : Int)
      · rw [if_pos hc, if_pos hc]
        exact ih (i + 1) _ _ (by omega)
      · rw [if_neg hc, if_neg hc]

/-- Shared helper: with a resolvable axis, a reference long enough for every
source dimension, and the fit check violated somewhere, `Reshape` aborts with
`invalidCropParams` naming a dimension at which the fit check is violated. -/
theorem reshape_violation_errs (param : CropParameter)
    (botShape refShape oldOffsets : List Nat) (a : Nat)
    (ha : CanonicalAxisIndex botShape.length param.axis = some a)
    (hlen : botShape.length ≤ refShape.length)
    (hviol : ∃ i, i < botShape.length ∧
      ¬ ((refShape.getD i 0 : Int) ≤
        (botShape.getD i 0 : Int) - (cropOffsetAt param a i : Int))) :
    ∃ d offsAbort, d < botShape.length ∧
      Reshape param botShape refShape oldOffsets = .err (.invalidCropParams d) offsAbort ∧
      ¬ ((refShape.getD d 0 : Int) ≤
        (botShape.getD d 0 : Int) - (cropOffsetAt param a d : Int)) := by
  rw [Reshape_eq_loop param botShape refShape oldOffsets a ha]
  cases hres : reshapeLoop param botShape refShape a botShape.length 0
      (List.replicate botShape.length 0) botShape with
  | ok offs ns =>
    exfalso
    obtain ⟨L1, L2, Hout, Hin⟩ := reshapeLoop_ok_spec param botShape refShape a
      botShape.length 0 (List.replicate botShape.length 0) botShape offs ns hres
      (by rw [List.length_replicate]; omega) (by omega)
    obtain ⟨i, hi, hv⟩ := hviol
    exact hv ((Hin i (by omega) (by omega)).2.2.2)
  | err e offsAbort =>
    obtain ⟨d, hd1, hd2, hcase, hlen2, hout, hproc⟩ :=
      reshapeLoop_err_spec param botShape refShape a botShape.length 0
        (List.replicate botShape.length 0) botShape e offsAbort hres
        (by rw [List.length_replicate]; omega)
    rcases hcase with ⟨he, hge⟩ | ⟨he, hdr, hnf⟩
    · exfalso; omega
    · subst he
      exact ⟨d, offsAbort, by omega, rfl, hnf⟩

/-! ### Claims about Reshape -/

/-- C3: after a successful reshape, the output shape equals the reference
shape on every dimension at or after the resolved axis and the source shape
on every dimension before it. -/
theorem reshape_output_shape (param : CropParameter)
    (botShape refShape oldOffsets : List Nat) (a : Nat) (offs ns : List Nat)
    (ha : CanonicalAxisIndex botShape.length param.axis = some a)
    (h : Reshape param botShape refShape oldOffsets = .ok offs ns) :
    ns.length = botShape.length ∧
    ∀ i, i < botShape.length →
      ns.getD i 0 = if a ≤ i then refShape.getD i 0 else botShape.getD i 0 := by
  rw [Reshape_eq_loop param botShape refShape oldOffsets a ha] at h
  obtain ⟨L1, L2, Hout, Hin⟩ := reshapeLoop_ok_spec param botShape refShape a
    botShape.length 0 (List.replicate botShape.length 0) botShape offs ns h
    (by rw [List.length_replicate]; omega) (by omega)
  exact ⟨by rw [L2], fun i hi => (Hin i (by omega) (by omega)).2.2.1⟩

/-- Witness for C3 at the spec's concrete scenario (source `[1,3,5,5]`,
reference `[1,3,3,3]`, axis `2`, offsets `[1,1]`), read at dimension `1`. -/
theorem reshape_output_shape_witness :
    ([1, 3, 3, 3] : List Nat).getD 1 0 =
      if 2 ≤ 1 then ([1, 3, 3, 3] : List Nat).getD 1 0
      else ([1, 3, 5, 5] : List Nat).getD 1 0 :=
  (reshape_output_shape ⟨2, [1, 1]⟩ [1, 3, 5, 5] [1, 3, 3, 3] [0, 0, 0, 0] 2
    [0, 0, 1, 1] [1, 3, 3, 3] (by decide) (by decide)).2 1 (by decide)

/-- C6: after a successful reshape the resolved offsets have one entry per
source dimension, every entry is non-negative (they are naturals, as the
configuration offsets are `uint32`), and the entries before the resolved axis
are zero. -/
theorem reshape_offsets_invariant (param : CropParameter)
    (botShape refShape oldOffsets : List Nat) (a : Nat) (offs ns : List Nat)
    (ha : CanonicalAxisIndex botShape.length param.axis = some a)
    (h : Reshape param botShape refShape oldOffsets = .ok offs ns) :
    offs.length = botShape.length ∧
    ∀ i, i < botShape.length → 0 ≤ offs.getD i 0 ∧ (i < a → offs.getD i 0 = 0) := by
  rw [Reshape_eq_loop param botShape refShape oldOffsets a ha] at h
  obtain ⟨L1, L2, Hout, Hin⟩ := reshapeLoop_ok_spec param botShape refShape a
    botShape.length 0 (List.replicate botShape.length 0) botShape offs ns h
    (by rw [List.length_replicate]; omega) (by omega)
  refine ⟨by rw [L1, List.length_replicate], fun i hi => ⟨Nat.zero_le _, fun hia => ?_⟩⟩
  rw [(Hin i (by omega) (by omega)).2.1]
  unfold cropOffsetAt
  rw [if_neg (by omega)]

/-- Witness for C6 at the spec's concrete scenario, read at dimension `1`
(before the axis `2`). -/
theorem reshape_offsets_invariant_witness :
    0 ≤ ([0, 0, 1, 1] : List Nat).getD 1 0 ∧
      (1 < 2 → ([0, 0, 1, 1] : List Nat).getD 1 0 = 0) :=
  (reshape_offsets_invariant ⟨2, [1, 1]⟩ [1, 3, 5, 5] [1, 3, 3, 3] [0, 0, 0, 0] 2
    [0, 0, 1, 1] [1, 3, 3, 3] (by decide) (by decide)).2 1 (by decide)

/-- Counterexample to C7 as stated: with source shape `[5]` and reference
shape `[5, 3]` (ranks 1 and 2), `LayerSetUp` passes and `Reshape` succeeds —
the reference's trailing dimension is simply ignored, so equal rank is not
required for success. -/
theorem reshape_rank_counterexample :
    LayerSetUp ⟨0, []⟩ ([5] : List Nat).length = true ∧
    Reshape ⟨0, []⟩ [5] [5, 3] [9] = .ok [0] [5] ∧
    ¬ (([5] : List Nat).length = ([5, 3] : List Nat).length) := by decide

/-- C7 amended: a successful reshape requires (and guarantees) only that the
source rank is at least 1 and that the reference rank is at least the source
rank — every source dimension must index validly into the reference shape;
the reference may have extra trailing dimensions, which are ignored. -/
theorem reshape_rank_le (param : CropParameter)
    (botShape refShape oldOffsets offs ns : List Nat)
    (h : Reshape param botShape refShape oldOffsets = .ok offs ns) :
    1 ≤ botShape.length ∧ botShape.length ≤ refShape.length := by
  unfold Reshape at h
  cases hca : CanonicalAxisIndex botShape.length param.axis with
  | none => rw [hca] at h; exact absurd h (by simp)
  | some a =>
    rw [hca] at h
    have ha := canonical_lt _ _ _ hca
    obtain ⟨L1, L2, Hout, Hin⟩ := reshapeLoop_ok_spec param botShape refShape a
      botShape.length 0 (List.replicate botShape.length 0) botShape offs ns h
      (by rw [List.length_replicate]; omega) (by omega)
    have hlast := (Hin (botShape.length - 1) (by omega) (by omega)).1
    exact ⟨by omega, by omega⟩

/-- Witness for the amended C7 at the counterexample's configuration. -/
theorem reshape_rank_le_witness :
    1 ≤ ([5] : List Nat).length ∧ ([5] : List Nat).length ≤ ([5, 3] : List Nat).length :=
  reshape_rank_le ⟨0, []⟩ [5] [5, 3] [9] [0] [5] (by decide)

/-- Counterexample to C4 as stated: a first reshape succeeds with resolved
offsets `[0, 3]`; a second reshape with offset `8` fails the fit check at
dimension 1, and after the failure the offsets member holds `[0, 0]` — the
previously valid `[0, 3]` has been corrupted (though the top shape is kept). -/
theorem reshape_partial_state_counterexample :
    ReshapeStep ⟨1, [3]⟩ [10, 10] [10, 4] ⟨[0, 0], [10, 10]⟩ =
      (⟨[0, 3], [10, 4]⟩, none) ∧
    ReshapeStep ⟨1, [8]⟩ [10, 10] [10, 4] ⟨[0, 3], [10, 4]⟩ =
      (⟨[0, 0], [10, 4]⟩, some (.invalidCropParams 1)) ∧
    ¬ (([0, 0] : List Nat) = [0, 3]) := by decide

/-- C4 amended: a failed reshape never commits a new output shape (the top
blob is reshaped only after all checks pass), but it does not preserve the
previous `ResolvedOffsets`: at the point of failure the offsets member holds
the freshly computed offsets for the dimensions before the failing one and
zeros everywhere else. -/
theorem reshape_fail_state (param : CropParameter) (botShape refShape : List Nat)
    (s s2 : CropState) (e : CropError) (a : Nat)
    (ha : CanonicalAxisIndex botShape.length param.axis = some a)
    (h : ReshapeStep param botShape refShape s = (s2, some e)) :
    s2.topShape = s.topShape ∧
    ∃ d, ∀ j, s2.offsets.getD j 0 = if j < d then cropOffsetAt param a j else 0 := by
  unfold ReshapeStep at h
  cases hres : Reshape param botShape refShape s.offsets with
  | ok o ns => rw [hres] at h; exact absurd h (by simp)
  | err e2 o =>
    rw [hres] at h
    simp only [Prod.mk.injEq] at h
    obtain ⟨h1, h2⟩ := h
    rw [← h1]
    rw [Reshape_eq_loop param botShape refShape s.offsets a ha] at hres
    obtain ⟨d, hd1, hd2, hcase, hlen2, hout, hproc⟩ :=
      reshapeLoop_err_spec param botShape refShape a botShape.length 0
        (List.replicate botShape.length 0) botShape e2 o hres
        (by rw [List.length_replicate]; omega)
    refine ⟨rfl, d, fun j => ?_⟩
    show o.getD j 0 = _
    by_cases hj : j < d
    · rw [if_pos hj, hproc j (by omega) hj]
    · rw [if_neg hj, hout j (by omega)]
      by_cases hjl : j < botShape.length
      · exact getD_replicate_lt _ _ _ _ hjl
      · exact getD_ge_length _ _ _ (by rw [List.length_replicate]; omega)

/-- Witness for the amended C4 at the counterexample's failing reshape. -/
theorem reshape_fail_state_witness :
    (⟨[0, 0], [10, 4]⟩ : CropState).topShape =
      (⟨[0, 3], [10, 4]⟩ : CropState).topShape ∧
    ∃ d, ∀ j, (⟨[0, 0], [10, 4]⟩ : CropState).offsets.getD j 0 =
      if j < d then cropOffsetAt ⟨1, [8]⟩ 1 j else 0 :=
  reshape_fail_state ⟨1, [8]⟩ [10, 10] [10, 4] ⟨[0, 3], [10, 4]⟩ ⟨[0, 0], [10, 4]⟩
    (.invalidCropParams 1) 1 (by decide) (by decide)

/-- C8: whenever the fit check `source[i] - offset[i] >= reference[i]` is
violated at some dimension (with a resolvable axis and a reference shape
covering every source dimension), `Reshape` fails with the
dimension-identifying `invalidCropParams` error, at a dimension where the
check is indeed violated. -/
theorem reshape_fit_error (param : CropParameter)
    (botShape refShape oldOffsets : List Nat) (a : Nat)
    (ha : CanonicalAxisIndex botShape.length param.axis = some a)
    (hlen : botShape.length ≤ refShape.length)
    (hviol : ∃ i, i < botShape.length ∧
      ¬ ((refShape.getD i 0 : Int) ≤
        (botShape.getD i 0 : Int) - (cropOffsetAt param a i : Int))) :
    ∃ d offsAbort, d < botShape.length ∧
      Reshape param botShape refShape oldOffsets = .err (.invalidCropParams d) offsAbort ∧
      ¬ ((refShape.getD d 0 : Int) ≤
        (botShape.getD d 0 : Int) - (cropOffsetAt param a d : Int)) :=
  reshape_violation_errs param botShape refShape oldOffsets a ha hlen hviol

/-- Witness for C8 at the spec's error scenario: source `[2, 10, 10]`,
reference `[2, 10, 10]`, axis `1`, offset `[5]` — dimension 1 has
`10 - 5 = 5 < 10`. -/
theorem reshape_fit_error_witness :
    ∃ d offsAbort, d < ([2, 10, 10] : List Nat).length ∧
      Reshape ⟨1, [5]⟩ [2, 10, 10] [2, 10, 10] [0, 0, 0] =
        .err (.invalidCropParams d) offsAbort ∧
      ¬ ((([2, 10, 10] : List Nat).getD d 0 : Int) ≤
        (([2, 10, 10] : List Nat).getD d 0 : Int) - (cropOffsetAt ⟨1, [5]⟩ 1 d : Int)) :=
  reshape_fit_error ⟨1, [5]⟩ [2, 10, 10] [2, 10, 10] [0, 0, 0] 1 (by decide) (by decide)
    ⟨1, by decide⟩

/-- C9: a single scalar offset `k` resolves identically to the explicit list
of `rank - axis` copies of `k`: both configurations pass `LayerSetUp` and
produce the same `Reshape` result (hence the same resolved offsets and output
shape, and therefore identical forward and backward behaviour, which depend
only on those). -/
theorem reshape_offset_broadcast (botShape refShape oldOffsets : List Nat) (ax : Int)
    (k a : Nat) (ha : CanonicalAxisIndex botShape.length ax = some a) :
    LayerSetUp ⟨ax, [k]⟩ botShape.length = true ∧
    LayerSetUp ⟨ax, List.replicate (botShape.length - a) k⟩ botShape.length = true ∧
    Reshape ⟨ax, [k]⟩ botShape refShape oldOffsets =
      Reshape ⟨ax, List.replicate (botShape.length - a) k⟩ botShape refShape
        oldOffsets := by
  have halt := canonical_lt _ _ _ ha
  refine ⟨?_, ?_, ?_⟩
  · unfold LayerSetUp
    rw [ha]
    simp [halt]
  · unfold LayerSetUp
    rw [ha]
    simp only [List.length_replicate, Bool.and_eq_true, decide_eq_true_eq, Bool.or_eq_true]
    exact ⟨halt, Or.inr (by omega)⟩
  · rw [Reshape_eq_loop ⟨ax, [k]⟩ botShape refShape oldOffsets a ha,
      Reshape_eq_loop ⟨ax, List.replicate (botShape.length - a) k⟩ botShape refShape
        oldOffsets a ha]
    exact reshapeLoop_broadcast botShape refShape ax k a halt botShape.length 0 _ _
      (by omega)

/-- Witness for C9: rank-4 source with axis 1, scalar offset 1 versus the
explicit `[1, 1, 1]`. -/
theorem reshape_offset_broadcast_witness :
    LayerSetUp ⟨1, [1]⟩ ([1, 4, 5, 5] : List Nat).length = true ∧
    LayerSetUp ⟨1, List.replicate (([1, 4, 5, 5] : List Nat).length - 1) 1⟩
      ([1, 4, 5, 5] : List Nat).length = true ∧
    Reshape ⟨1, [1]⟩ [1, 4, 5, 5] [1, 4, 3, 3] [0, 0, 0, 0] =
      Reshape ⟨1, List.replicate (([1, 4, 5, 5] : List Nat).length - 1) 1⟩
        [1, 4, 5, 5] [1, 4, 3, 3] [0, 0, 0, 0] :=
  reshape_offset_broadcast [1, 4, 5, 5] [1, 4, 3, 3] [0, 0, 0, 0] 1 1 1 (by decide)

/-- C10: the fit check applies to every dimension, including those before the
resolved axis (where the offset is zero): if `source[i] < reference[i]` for
some `i < axis`, `Reshape` fails with the dimension-identifying
`invalidCropParams` error even though no cropping happens at `i`. -/
theorem reshape_prechecked_dims (param : CropParameter)
    (botShape refShape oldOffsets : List Nat) (a i : Nat)
    (ha : CanonicalAxisIndex botShape.length param.axis = some a)
    (hlen : botShape.length ≤ refShape.length)
    (hi : i < botShape.length) (hia : i < a)
    (hlt : botShape.getD i 0 < refShape.getD i 0) :
    ∃ d offsAbort, d < botShape.length ∧
      Reshape param botShape refShape oldOffsets = .err (.invalidCropParams d) offsAbort ∧
      ¬ ((refShape.getD d 0 : Int) ≤
        (botShape.getD d 0 : Int) - (cropOffsetAt param a d : Int)) := by
  refine reshape_violation_errs param botShape refShape oldOffsets a ha hlen
    ⟨i, hi, ?_⟩
  unfold cropOffsetAt
  rw [if_neg (by omega)]
  push_cast
  omega

/-- Witness for C10: source `[1, 5]`, reference `[2, 5]`, axis `1` — dimension
0 is before the axis yet `1 < 2` makes reshape fail there. -/
theorem reshape_prechecked_dims_witness :
    ∃ d offsAbort, d < ([1, 5] : List Nat).length ∧
      Reshape ⟨1, []⟩ [1, 5] [2, 5] [0, 0] = .err (.invalidCropParams d) offsAbort ∧
      ¬ ((([2, 5] : List Nat).getD d 0 : Int) ≤
        (([1, 5] : List Nat).getD d 0 : Int) - (cropOffsetAt ⟨1, []⟩ 1 d : Int)) :=
  reshape_prechecked_dims ⟨1, []⟩ [1, 5] [2, 5] [0, 0] 1 0 (by decide) (by decide)
    (by decide) (by decide) (by decide)

/-! ### The recursive region copier -/

theorem caffe_copy_in {α : Type} (N : Nat) (src : Nat → α) (sb db k : Nat)
    (d : Nat → α) (h1 : db ≤ k) (h2 : k < db + N) :
    caffe_copy N src sb d db k = src (sb + (k - db)) := by
  unfold caffe_copy
  rw [if_pos ⟨h1, h2⟩]

theorem caffe_copy_out {α : Type} (N : Nat) (src : Nat → α) (sb db k : Nat)
    (d : Nat → α) (h : ¬ (db ≤ k ∧ k < db + N)) :
    caffe_copy N src sb d db k = d k := by
  unfold caffe_copy
  rw [if_neg h]

theorem caffe_copy_idem {α : Type} (N : Nat) (src : Nat → α) (sb db : Nat)
    (d : Nat → α) :
    caffe_copy N src sb (caffe_copy N src sb d db) db = caffe_copy N src sb d db := by
  funext k
  by_cases h : db ≤ k ∧ k < db + N
  · rw [caffe_copy_in N src sb db k _ h.1 h.2, caffe_copy_in N src sb db k _ h.1 h.2]
  · rw [caffe_copy_out N src sb db k _ h, caffe_copy_out N src sb db k _ h]

theorem forLoop_const_idem {α : Type} (g : (Nat → α) → Nat → α)
    (hg : ∀ d, g (g d) = g d) :
    ∀ (n : Nat) (d : Nat → α), 1 ≤ n → forLoop n (fun _ x => g x) d = g d := by
  intro n
  induction n with
  | zero => intro d h; omega
  | succ m ih =>
    intro d h
    show g (forLoop m (fun _ x => g x) d) = g d
    cases Nat.eq_zero_or_pos m with
    | inl h0 => subst h0; rfl
    | inr hpos => rw [ih d hpos, hg]

theorem linIdx_snoc (s u : List Nat) (a : Nat) (h : s.length = u.length + 1) :
    linIdx s (u ++ [a]) = linIdx s u + a := by
  rw [linIdx_append s u [a] (by omega), drop_last_eq s u.length 0 h, linIdx_cons]
  simp [linIdx_nil_right]

/-- Behaviour of the innermost branch of `crop_copy`: positions not of the
form `destPos (prefix ++ [a])` (with `a` in range) are untouched, and at
`destPos (prefix ++ [a])` the result reads `src (srcPos (prefix ++ [a]))`. -/
theorem cropCopyLast_spec {α : Type} (bottomShape topShape offsets : List Nat)
    (fwd : Bool) (src : Nat → α) (indices : List Nat) (cur_dim : Nat) (dest : Nat → α)
    (hlb : bottomShape.length = topShape.length)
    (hlo : offsets.length = topShape.length)
    (hind : indices.length = topShape.length)
    (hcur : cur_dim + 1 = topShape.length) :
    (∀ k, (∀ suffix, suffix.length = topShape.length - cur_dim →
        (∀ j, j < topShape.length - cur_dim →
          suffix.getD j 0 < topShape.getD (cur_dim + j) 0) →
        k ≠ destPos bottomShape topShape offsets fwd (indices.take cur_dim ++ suffix)) →
      cropCopyLast bottomShape topShape offsets fwd src indices cur_dim dest k = dest k) ∧
    (∀ suffix, suffix.length = topShape.length - cur_dim →
        (∀ j, j < topShape.length - cur_dim →
          suffix.getD j 0 < topShape.getD (cur_dim + j) 0) →
      cropCopyLast bottomShape topShape offsets fwd src indices cur_dim dest
          (destPos bottomShape topShape offsets fwd (indices.take cur_dim ++ suffix)) =
        src (srcPos bottomShape topShape offsets fwd (indices.take cur_dim ++ suffix))) := by
  have hpreLen : (indices.take cur_dim).length = cur_dim := by
    rw [List.length_take]
    omega
  have hzpLen : (List.zipWith (· + ·) (indices.take cur_dim)
      (offsets.take cur_dim)).length = cur_dim := by
    rw [List.length_zipWith, hpreLen, List.length_take]
    omega
  have hred : (List.range cur_dim).map (fun j => indices.getD j 0) =
      indices.take cur_dim :=
    map_range_getD cur_dim indices (by omega)
  have hoff : (List.range cur_dim).map (fun j => indices.getD j 0 + offsets.getD j 0) =
      List.zipWith (· + ·) (indices.take cur_dim) (offsets.take cur_dim) :=
    map_range_getD_add cur_dim indices offsets (by omega) (by omega)
  have hsplit : offsets = offsets.take cur_dim ++ [offsets.getD cur_dim 0] := by
    conv_lhs => rw [← List.take_append_drop cur_dim offsets]
    rw [drop_last_eq offsets cur_dim 0 (by omega)]
  have hzipsnoc : ∀ a : Nat,
      List.zipWith (· + ·) (indices.take cur_dim ++ [a]) offsets =
        List.zipWith (· + ·) (indices.take cur_dim) (offsets.take cur_dim) ++
          [a + offsets.getD cur_dim 0] := by
    intro a
    conv_lhs => rw [hsplit]
    rw [List.zipWith_append _ _ _ _ _ (by rw [hpreLen, List.length_take]; omega)]
    rfl
  have hTopSnoc : ∀ a : Nat,
      linIdx topShape (indices.take cur_dim ++ [a]) =
        linIdx topShape (indices.take cur_dim) + a := fun a =>
    linIdx_snoc topShape (indices.take cur_dim) a (by omega)
  have hBotSnoc : ∀ a : Nat,
      linIdx bottomShape (List.zipWith (· + ·) (indices.take cur_dim ++ [a]) offsets) =
        linIdx bottomShape (List.zipWith (· + ·) (indices.take cur_dim)
          (offsets.take cur_dim) ++ [offsets.getD cur_dim 0]) + a := by
    intro a
    rw [hzipsnoc a,
      linIdx_snoc bottomShape _ (a + offsets.getD cur_dim 0) (by omega),
      linIdx_snoc bottomShape _ (offsets.getD cur_dim 0) (by omega)]
    omega
  have hDB : blobOffset topShape (indices.take cur_dim) 0 =
      linIdx topShape (indices.take cur_dim) := blobOffset_eq_linIdx _ _
  have hSB : blobOffset bottomShape (List.zipWith (· + ·) (indices.take cur_dim)
        (offsets.take cur_dim) ++ [offsets.getD cur_dim 0]) 0 =
      linIdx bottomShape (List.zipWith (· + ·) (indices.take cur_dim)
        (offsets.take cur_dim) ++ [offsets.getD cur_dim 0]) := blobOffset_eq_linIdx _ _
  have hsufflen : topShape.length - cur_dim = 1 := by omega
  cases fwd with
  | true =>
    have hloopT : ∀ (d0 : Nat → α), 1 ≤ topShape.getD cur_dim 0 →
        cropCopyLast bottomShape topShape offsets true src indices cur_dim d0 =
          caffe_copy (topShape.getD cur_dim 0) src
            (blobOffset bottomShape (List.zipWith (· + ·) (indices.take cur_dim)
              (offsets.take cur_dim) ++ [offsets.getD cur_dim 0]) 0) d0
            (blobOffset topShape (indices.take cur_dim) 0) := by
      intro d0 ht1
      unfold cropCopyLast
      rw [hred, hoff]
      exact forLoop_const_idem _
        (fun d => caffe_copy_idem (topShape.getD cur_dim 0) src _ _ d)
        (topShape.getD cur_dim 0) d0 ht1
    constructor
    · intro k hk
      by_cases ht0 : topShape.getD cur_dim 0 = 0
      · unfold cropCopyLast
        rw [ht0]
        rfl
      · rw [hloopT dest (by omega)]
        apply caffe_copy_out
        rw [hDB]
        rintro ⟨hk1, hk2⟩
        refine absurd ?_ (hk [k - linIdx topShape (indices.take cur_dim)]
          (by rw [hsufflen]; rfl) ?_)
        · show k = destPos bottomShape topShape offsets true _
          simp only [destPos, if_true]
          rw [hTopSnoc]
          omega
        · intro j hj
          rw [hsufflen] at hj
          have hj0 : j = 0 := by omega
          subst hj0
          show k - linIdx topShape (indices.take cur_dim) < topShape.getD (cur_dim + 0) 0
          have : cur_dim + 0 = cur_dim := by omega
          rw [this]
          omega
    · intro suffix hs1 hs2
      rw [hsufflen] at hs1
      have hsuff : suffix = [suffix.getD 0 0] := length_one_eq suffix 0 hs1
      have ha : suffix.getD 0 0 < topShape.getD cur_dim 0 := by
        have h0 := hs2 0 (by omega)
        have he : cur_dim + 0 = cur_dim := by omega
        rw [he] at h0
        exact h0
      rw [hsuff]
      simp only [destPos, srcPos, if_true]
      rw [hTopSnoc, hBotSnoc, hloopT dest (by omega)]
      rw [caffe_copy_in _ _ _ _ _ _ (by rw [hDB]; omega) (by rw [hDB]; omega)]
      rw [hSB, hDB]
      congr 1
      omega
  | false =>
    have hloopF : ∀ (d0 : Nat → α), 1 ≤ topShape.getD cur_dim 0 →
        cropCopyLast bottomShape topShape offsets false src indices cur_dim d0 =
          caffe_copy (topShape.getD cur_dim 0) src
            (blobOffset topShape (indices.take cur_dim) 0) d0
            (blobOffset bottomShape (List.zipWith (· + ·) (indices.take cur_dim)
              (offsets.take cur_dim) ++ [offsets.getD cur_dim 0]) 0) := by
      intro d0 ht1
      unfold cropCopyLast
      rw [hred, hoff]
      exact forLoop_const_idem _
        (fun d => caffe_copy_idem (topShape.getD cur_dim 0) src _ _ d)
        (topShape.getD cur_dim 0) d0 ht1
    constructor
    · intro k hk
      by_cases ht0 : topShape.getD cur_dim 0 = 0
      · unfold cropCopyLast
        rw [ht0]
        rfl
      · rw [hloopF dest (by omega)]
        apply caffe_copy_out
        rw [hSB]
        rintro ⟨hk1, hk2⟩
        refine absurd ?_ (hk [k - linIdx bottomShape (List.zipWith (· + ·)
            (indices.take cur_dim) (offsets.take cur_dim) ++ [offsets.getD cur_dim 0])]
          (by rw [hsufflen]; rfl) ?_)
        · show k = destPos bottomShape topShape offsets false _
          simp only [destPos, Bool.false_eq_true, if_false]
          rw [hBotSnoc]
          omega
        · intro j hj
          rw [hsufflen] at hj
          have hj0 : j = 0 := by omega
          subst hj0
          have he : cur_dim + 0 = cur_dim := by omega
          rw [he]
          show k - linIdx bottomShape _ < topShape.getD cur_dim 0
          omega
    · intro suffix hs1 hs2
      rw [hsufflen] at hs1
      have hsuff : suffix = [suffix.getD 0 0] := length_one_eq suffix 0 hs1
      have ha : suffix.getD 0 0 < topShape.getD cur_dim 0 := by
        have h0 := hs2 0 (by omega)
        have he : cur_dim + 0 = cur_dim := by omega
        rw [he] at h0
        exact h0
      rw [hsuff]
      simp only [destPos, srcPos, Bool.false_eq_true, if_false]
      rw [hTopSnoc, hBotSnoc, hloopF dest (by omega)]
      rw [caffe_copy_in _ _ _ _ _ _ (by rw [hSB]; omega) (by rw [hSB]; omega)]
      rw [hSB, hDB]
      congr 1
      omega

theorem validIdx_take_append (topShape indices : List Nat) (cur_dim : Nat)
    (hind : indices.length = topShape.length) (hcd : cur_dim ≤ topShape.length)
    (hpre : ∀ j, j < cur_dim → indices.getD j 0 < topShape.getD j 0)
    (suffix : List Nat) (hs1 : suffix.length = topShape.length - cur_dim)
    (hs2 : ∀ j, j < topShape.length - cur_dim →
      suffix.getD j 0 < topShape.getD (cur_dim + j) 0) :
    validIdx topShape (indices.take cur_dim ++ suffix) := by
  have hpl : (indices.take cur_dim).length = cur_dim := by
    rw [List.length_take]
    omega
  constructor
  · rw [List.length_append, hpl]
    omega
  · intro i hi
    by_cases hic : i < cur_dim
    · rw [getD_append_lt _ _ _ _ (by omega), getD_take_lt indices cur_dim i 0 hic]
      exact hpre i hic
    · rw [getD_append_ge _ _ _ _ (by omega), hpl]
      have h := hs2 (i - cur_dim) (by omega)
      have he : cur_dim + (i - cur_dim) = i := by omega
      rw [he] at h
      exact h

/-- Characterisation of `crop_copy` from an arbitrary recursion level: with a
valid prefix fixed in `indices`, destination positions that are not
`destPos (prefix ++ suffix)` for any in-range suffix are untouched, and the
position `destPos (prefix ++ suffix)` holds `src (srcPos (prefix ++ suffix))`. -/
theorem crop_copy_spec {α : Type} (bottomShape topShape offsets : List Nat)
    (fwd : Bool) (src : Nat → α)
    (hlb : bottomShape.length = topShape.length)
    (hlo : offsets.length = topShape.length)
    (hfit : ∀ i, i < topShape.length →
      offsets.getD i 0 + topShape.getD i 0 ≤ bottomShape.getD i 0) :
    ∀ (fuel cur_dim : Nat) (indices : List Nat) (dest : Nat → α),
      topShape.length ≤ cur_dim + fuel + 1 →
      cur_dim < topShape.length →
      indices.length = topShape.length →
      (∀ j, j < cur_dim → indices.getD j 0 < topShape.getD j 0) →
      (∀ k, (∀ suffix, suffix.length = topShape.length - cur_dim →
          (∀ j, j < topShape.length - cur_dim →
            suffix.getD j 0 < topShape.getD (cur_dim + j) 0) →
          k ≠ destPos bottomShape topShape offsets fwd (indices.take cur_dim ++ suffix)) →
        crop_copy bottomShape topShape offsets fwd src fuel indices cur_dim dest k =
          dest k) ∧
      (∀ suffix, suffix.length = topShape.length - cur_dim →
          (∀ j, j < topShape.length - cur_dim →
            suffix.getD j 0 < topShape.getD (cur_dim + j) 0) →
        crop_copy bottomShape topShape offsets fwd src fuel indices cur_dim dest
            (destPos bottomShape topShape offsets fwd (indices.take cur_dim ++ suffix)) =
          src (srcPos bottomShape topShape offsets fwd (indices.take cur_dim ++ suffix))) := by
  intro fuel
  induction fuel with
  | zero =>
    intro cur_dim indices dest hfuel hcd hind hpre
    have hcur : cur_dim + 1 = topShape.length := by omega
    have hcc : crop_copy bottomShape topShape offsets fwd src 0 indices cur_dim dest =
        cropCopyLast bottomShape topShape offsets fwd src indices cur_dim dest := by
      simp only [crop_copy]
      rw [if_neg (by omega)]
    obtain ⟨hA, hB⟩ := cropCopyLast_spec bottomShape topShape offsets fwd src indices
      cur_dim dest hlb hlo hind hcur
    constructor
    · intro k hk
      rw [hcc]
      exact hA k hk
    · intro suffix hs1 hs2
      rw [hcc]
      exact hB suffix hs1 hs2
  | succ f ih =>
    intro cur_dim indices dest hfuel hcd hind hpre
    by_cases hbr : cur_dim + 1 < topShape.length
    · -- outer-loop branch
      have hcc : crop_copy bottomShape topShape offsets fwd src (f + 1) indices cur_dim
          dest =
          forLoop (topShape.getD cur_dim 0)
            (fun i d => crop_copy bottomShape topShape offsets fwd src f
              (indices.set cur_dim i) (cur_dim + 1) d) dest := by
        simp only [crop_copy]
        rw [if_pos hbr]
      have hfuel2 : topShape.length ≤ (cur_dim + 1) + f + 1 := by omega
      have hindset : ∀ m : Nat, (indices.set cur_dim m).length = topShape.length := by
        intro m
        rw [List.length_set]
        exact hind
      have hset : ∀ m, m < topShape.getD cur_dim 0 →
          ∀ j, j < cur_dim + 1 →
            (indices.set cur_dim m).getD j 0 < topShape.getD j 0 := by
        intro m hm j hj
        by_cases hjc : j = cur_dim
        · subst hjc
          rw [getD_set_self indices j m 0 (by omega)]
          exact hm
        · rw [getD_set_ne indices cur_dim j m 0 (fun he => hjc he.symm)]
          exact hpre j (by omega)
      have htake : ∀ m : Nat, (indices.set cur_dim m).take (cur_dim + 1) =
          indices.take cur_dim ++ [m] := fun m =>
        take_set_succ indices cur_dim m (by omega)
      constructor
      · -- untouched positions
        intro k hk
        rw [hcc]
        have haux : ∀ n, n ≤ topShape.getD cur_dim 0 →
            forLoop n (fun i d => crop_copy bottomShape topShape offsets fwd src f
              (indices.set cur_dim i) (cur_dim + 1) d) dest k = dest k := by
          intro n
          induction n with
          | zero => intro _; rfl
          | succ m ihn =>
            intro hn
            have hm : m < topShape.getD cur_dim 0 := by omega
            show crop_copy bottomShape topShape offsets fwd src f
              (indices.set cur_dim m) (cur_dim + 1)
              (forLoop m (fun i d => crop_copy bottomShape topShape offsets fwd src f
                (indices.set cur_dim i) (cur_dim + 1) d) dest) k = dest k
            obtain ⟨hA2, _⟩ := ih (cur_dim + 1) (indices.set cur_dim m) _ hfuel2 hbr
              (hindset m) (hset m hm)
            rw [hA2 k ?_]
            · exact ihn (by omega)
            · intro s hs1 hs2
              rw [htake m, List.append_assoc, List.singleton_append]
              refine hk (m :: s) ?_ ?_
              · simp only [List.length_cons]
                omega
              · intro j hj
                cases j with
                | zero =>
                  show m < topShape.getD (cur_dim + 0) 0
                  have he : cur_dim + 0 = cur_dim := by omega
                  rw [he]
                  exact hm
                | succ j2 =>
                  show s.getD j2 0 < topShape.getD (cur_dim + (j2 + 1)) 0
                  have he : cur_dim + (j2 + 1) = (cur_dim + 1) + j2 := by omega
                  rw [he]
                  exact hs2 j2 (by omega)
        exact haux (topShape.getD cur_dim 0) (le_refl _)
      · -- window positions
        intro suffix hs1 hs2
        rw [hcc]
        cases suffix with
        | nil =>
          exfalso
          simp only [List.length_nil] at hs1
          omega
        | cons s0 rest =>
          have hs0 : s0 < topShape.getD cur_dim 0 := by
            have h0 := hs2 0 (by omega)
            have he : cur_dim + 0 = cur_dim := by omega
            rw [he] at h0
            exact h0
          have hrest1 : rest.length = topShape.length - (cur_dim + 1) := by
            simp only [List.length_cons] at hs1
            omega
          have hrest2 : ∀ j, j < topShape.length - (cur_dim + 1) →
              rest.getD j 0 < topShape.getD ((cur_dim + 1) + j) 0 := by
            intro j hj
            have h := hs2 (j + 1) (by omega)
            have he : cur_dim + (j + 1) = (cur_dim + 1) + j := by omega
            rw [he] at h
            exact h
          have hvfull : validIdx topShape (indices.take cur_dim ++ s0 :: rest) :=
            validIdx_take_append topShape indices cur_dim hind (by omega) hpre
              (s0 :: rest) hs1 hs2
          have haux : ∀ n, s0 < n → n ≤ topShape.getD cur_dim 0 →
              forLoop n (fun i d => crop_copy bottomShape topShape offsets fwd src f
                (indices.set cur_dim i) (cur_dim + 1) d) dest
                (destPos bottomShape topShape offsets fwd
                  (indices.take cur_dim ++ s0 :: rest)) =
              src (srcPos bottomShape topShape offsets fwd
                (indices.take cur_dim ++ s0 :: rest)) := by
            intro n
            induction n with
            | zero => intro h _; omega
            | succ m ihn =>
              intro hs0m hmt
              have hm : m < topShape.getD cur_dim 0 := by omega
              show crop_copy bottomShape topShape offsets fwd src f
                (indices.set cur_dim m) (cur_dim + 1)
                (forLoop m (fun i d => crop_copy bottomShape topShape offsets fwd src f
                  (indices.set cur_dim i) (cur_dim + 1) d) dest)
                (destPos bottomShape topShape offsets fwd
                  (indices.take cur_dim ++ s0 :: rest)) = _
              by_cases hms : m = s0
              · subst hms
                obtain ⟨_, hB2⟩ := ih (cur_dim + 1) (indices.set cur_dim m) _ hfuel2 hbr
                  (hindset m) (hset m hm)
                have h := hB2 rest hrest1 hrest2
                rw [htake m, List.append_assoc, List.singleton_append] at h
                exact h
              · have hms2 : s0 < m := by omega
                obtain ⟨hA2, _⟩ := ih (cur_dim + 1) (indices.set cur_dim m) _ hfuel2 hbr
                  (hindset m) (hset m hm)
                rw [hA2 _ ?_]
                · exact ihn hms2 (by omega)
                · intro s2 hs21 hs22
                  rw [htake m, List.append_assoc, List.singleton_append]
                  intro heq
                  have hv2 : validIdx topShape (indices.take cur_dim ++ m :: s2) := by
                    refine validIdx_take_append topShape indices cur_dim hind (by omega)
                      hpre (m :: s2) ?_ ?_
                    · simp only [List.length_cons]
                      omega
                    · intro j hj
                      cases j with
                      | zero =>
                        show m < topShape.getD (cur_dim + 0) 0
                        have he : cur_dim + 0 = cur_dim := by omega
                        rw [he]
                        exact hm
                      | succ j2 =>
                        show s2.getD j2 0 < topShape.getD (cur_dim + (j2 + 1)) 0
                        have he : cur_dim + (j2 + 1) = (cur_dim + 1) + j2 := by omega
                        rw [he]
                        exact hs22 j2 (by omega)
                  have hlists := destPos_inj fwd hlb hlo hfit hvfull hv2 heq
                  have hcons : s0 :: rest = m :: s2 := List.append_cancel_left hlists
                  have : s0 = m := by injection hcons
                  omega
          exact haux (topShape.getD cur_dim 0) hs0 (le_refl _)
    · -- last-dimension branch
      have hcur : cur_dim + 1 = topShape.length := by omega
      have hcc : crop_copy bottomShape topShape offsets fwd src (f + 1) indices cur_dim
          dest =
          cropCopyLast bottomShape topShape offsets fwd src indices cur_dim dest := by
        simp only [crop_copy]
        rw [if_neg hbr]
      obtain ⟨hA, hB⟩ := cropCopyLast_spec bottomShape topShape offsets fwd src indices
        cur_dim dest hlb hlo hind hcur
      constructor
      · intro k hk
        rw [hcc]
        exact hA k hk
      · intro suffix hs1 hs2
        rw [hcc]
        exact hB suffix hs1 hs2

/-! ### Claims about Forward, Backward and the copy count -/

/-- C1: for every valid configuration (equal ranks, rank at least 1, crop
window fitting in the source), `Forward_cpu` is a pure windowed read: the
output element at multi-index `idx` equals the source element at
`idx + offsets`, and every position of the output buffer (all linear
positions below the output volume) is overwritten with the corresponding
source element, independent of the output buffer's previous contents. -/
theorem forward_windowed_read {α : Type} (bottomShape topShape offsets : List Nat)
    (bottom_data top_data : Nat → α)
    (hlb : bottomShape.length = topShape.length)
    (hlo : offsets.length = topShape.length)
    (hr : 1 ≤ topShape.length)
    (hfit : ∀ i, i < topShape.length →
      offsets.getD i 0 + topShape.getD i 0 ≤ bottomShape.getD i 0) :
    (∀ idx, validIdx topShape idx →
      Forward_cpu bottomShape topShape offsets bottom_data top_data
          (linIdx topShape idx) =
        bottom_data (linIdx bottomShape (List.zipWith (· + ·) idx offsets))) ∧
    (∀ k, k < topShape.prod →
      Forward_cpu bottomShape topShape offsets bottom_data top_data k =
        bottom_data (linIdx bottomShape
          (List.zipWith (· + ·) (unrank topShape k) offsets))) := by
  obtain ⟨hA, hB⟩ := crop_copy_spec bottomShape topShape offsets true bottom_data hlb hlo
    hfit topShape.length 0 (List.replicate topShape.length 0) top_data (by omega)
    (by omega) (List.length_replicate _ _) (fun j hj => absurd hj (by omega))
  have hwin : ∀ idx, validIdx topShape idx →
      Forward_cpu bottomShape topShape offsets bottom_data top_data
          (linIdx topShape idx) =
        bottom_data (linIdx bottomShape (List.zipWith (· + ·) idx offsets)) := by
    intro idx hv
    obtain ⟨hv1, hv2⟩ := hv
    have h := hB idx (by omega) (by
      intro j hj
      have := hv2 j (by omega)
      simpa using this)
    simp only [List.take_zero, List.nil_append] at h
    simp only [destPos, srcPos, if_true] at h
    exact h
  constructor
  · exact hwin
  · intro k hk
    have h := hwin (unrank topShape k) (unrank_validIdx topShape k hk)
    rw [linIdx_unrank topShape k hk] at h
    exact h

/-- Witness for C1: source shape `[2, 3]`, output shape `[2, 2]`, offsets
`[0, 1]`, read at output index `[1, 1]`. -/
theorem forward_windowed_read_witness :
    Forward_cpu [2, 3] [2, 2] [0, 1] (fun k => k) (fun _ => (99 : Nat))
        (linIdx [2, 2] [1, 1]) =
      (fun k => k) (linIdx [2, 3] (List.zipWith (· + ·) [1, 1] [0, 1])) :=
  (forward_windowed_read [2, 3] [2, 2] [0, 1] (fun k => k) (fun _ => (99 : Nat))
    (by decide) (by decide) (by decide) (by decide)).1 [1, 1] (by decide)

/-- C2: for every valid configuration, `Backward_cpu` with the propagate flag
set is the exact adjoint of the crop: at every source multi-index inside the
cropped window the produced gradient equals the output gradient at the
corresponding output index, and at every source multi-index outside the
window it is exactly zero. -/
theorem backward_adjoint {α : Type} [Zero α] (bottomShape topShape offsets : List Nat)
    (top_diff bottom_diff : Nat → α)
    (hlb : bottomShape.length = topShape.length)
    (hlo : offsets.length = topShape.length)
    (hr : 1 ≤ topShape.length)
    (hfit : ∀ i, i < topShape.length →
      offsets.getD i 0 + topShape.getD i 0 ≤ bottomShape.getD i 0) :
    ∀ j, validIdx bottomShape j →
      ((∀ i, i < bottomShape.length →
          offsets.getD i 0 ≤ j.getD i 0 ∧
            j.getD i 0 < offsets.getD i 0 + topShape.getD i 0) →
        Backward_cpu bottomShape topShape offsets true top_diff bottom_diff
            (linIdx bottomShape j) =
          top_diff (linIdx topShape (List.zipWith (fun a b => a - b) j offsets))) ∧
      ((¬ ∀ i, i < bottomShape.length →
          offsets.getD i 0 ≤ j.getD i 0 ∧
            j.getD i 0 < offsets.getD i 0 + topShape.getD i 0) →
        Backward_cpu bottomShape topShape offsets true top_diff bottom_diff
            (linIdx bottomShape j) = 0) := by
  obtain ⟨hA, hB⟩ := crop_copy_spec bottomShape topShape offsets false top_diff hlb hlo
    hfit topShape.length 0 (List.replicate topShape.length 0)
    (caffe_set bottomShape.prod (0 : α) bottom_diff) (by omega) (by omega)
    (List.length_replicate _ _) (fun j hj => absurd hj (by omega))
  have hBack : Backward_cpu bottomShape topShape offsets true top_diff bottom_diff =
      crop_copy bottomShape topShape offsets false top_diff topShape.length
        (List.replicate topShape.length 0) 0
        (caffe_set bottomShape.prod (0 : α) bottom_diff) := rfl
  intro j hj
  obtain ⟨hj1, hj2⟩ := hj
  constructor
  · intro hwin
    have hjl : j.length = topShape.length := by omega
    have hsubv : validIdx topShape (List.zipWith (fun a b => a - b) j offsets) := by
      constructor
      · rw [List.length_zipWith, hjl, hlo]
        simp
      · intro i hi
        rw [getD_zipWith _ j offsets i (by omega) (by omega)]
        have h1 := (hwin i (by omega)).1
        have h2 := (hwin i (by omega)).2
        omega
    obtain ⟨hsv1, hsv2⟩ := hsubv
    have hjrec : List.zipWith (· + ·)
        (List.zipWith (fun a b => a - b) j offsets) offsets = j := by
      refine ext_getD _ _ ?_ ?_
      · rw [List.length_zipWith, List.length_zipWith, hjl, hlo]
        simp
      · intro i hi
        rw [List.length_zipWith] at hi
        have hi2 : i < topShape.length := by
          rw [List.length_zipWith, hjl, hlo] at hi
          omega
        rw [getD_zipWith _ _ offsets i (by rw [List.length_zipWith]; omega) (by omega),
          getD_zipWith _ j offsets i (by omega) (by omega)]
        have h1 := (hwin i (by omega)).1
        omega
    have h := hB (List.zipWith (fun a b => a - b) j offsets) (by omega) (by
      intro i hi
      have := hsv2 i (by omega)
      simpa using this)
    simp only [List.take_zero, List.nil_append] at h
    simp only [destPos, srcPos, Bool.false_eq_true, if_false] at h
    rw [hjrec] at h
    rw [hBack]
    exact h
  · intro hnw
    rw [hBack]
    have hk : linIdx bottomShape j < bottomShape.prod :=
      linIdx_lt_prod bottomShape j hj1 hj2
    rw [hA (linIdx bottomShape j) ?_]
    · unfold caffe_set
      rw [if_pos hk]
    · intro s hs1 hs2
      simp only [List.take_zero, List.nil_append]
      simp only [destPos, Bool.false_eq_true, if_false]
      intro heq
      have hsv : validIdx topShape s := by
        constructor
        · omega
        · intro i hi
          have := hs2 i (by omega)
          simpa using this
      have hzv : validIdx bottomShape (List.zipWith (· + ·) s offsets) :=
        validIdx_zip_add hlb hlo hfit hsv
      have hjeq : j = List.zipWith (· + ·) s offsets :=
        linIdx_inj bottomShape _ _ ⟨hj1, hj2⟩ hzv heq
      apply hnw
      intro i hi
      have hgd : j.getD i 0 = s.getD i 0 + offsets.getD i 0 := by
        rw [hjeq]
        exact getD_zipWith _ s offsets i (by rw [hsv.1]; omega) (by omega)
      have hsi := hsv.2 i (by omega)
      omega

/-- Witness for C2: source shape `[3]`, output shape `[2]`, offset `[1]`,
read at source index `[2]` (inside the window). -/
theorem backward_adjoint_witness :
    Backward_cpu [3] [2] [1] true (fun k => k + 10) (fun _ => (7 : Nat))
        (linIdx [3] [2]) =
      (fun k => k + 10) (linIdx [2] (List.zipWith (fun a b => a - b) [2] [1])) :=
  ((backward_adjoint [3] [2] [1] (fun k => k + 10) (fun _ => (7 : Nat)) (by decide)
    (by decide) (by decide) (by decide)) [2] (by decide)).1 (by decide)

/-- C5 (divergence evidence): the number of bulk-copy (`caffe_copy`) calls
performed by the copier.  For a rank-1 output of shape `[2]` the code performs
`2` bulk copies, not the single copy the claim states; for an output of shape
`[2, 3]` it performs `6 = 2 * 3` calls, not `6 / 3 = 2`: the innermost loop
runs once per element of the last dimension but ignores its loop variable,
redundantly repeating the identical row copy. -/
theorem cropCopyCalls_counts :
    cropCopyCalls [2] ([2] : List Nat).length 0 = 2 ∧
    cropCopyCalls [2, 3] ([2, 3] : List Nat).length 0 = 2 * 3 := by decide

end CaffeCrop
